import Mathlib

/-!
Verification of the niri IPC client library and its two daemons
(auto-tiling engine, per-workspace wallpaper rotator).

The definitions below are shallow embeddings of the Python sources:

* `splitOnNl`, `read_loop`, `read_next`, `readMany` model
  `NiriSocket._read_next` from `src/niri/_socket.py` (the `src/niri/ipc.py`
  copy is byte-for-byte the same algorithm, representing the absent carried
  fragment as `""` instead of `None`; both are modelled by the empty list).
  Byte strings are modelled as `List Char`; the stream of `recv` results is a
  `List (List Char)`, an empty element meaning a zero-length read (peer close).
* `Json`, `Dict`, `request`, `action`, `read_eventstream` model the protocol
  layer `NiriRequests` of `src/niri/_socket.py`.  At this layer `_read_next`
  is abstracted (justified by the framing theorem) as popping the next
  already-parsed message from the connection's pending list.
* `EventDispatcher`, `dispatch` model `src/niri/events.py`.
* `TileManager`, `windowOpenedOrChanged`, `windowClosed`,
  `windowLayoutsChanged` model the `TileManager` class of
  `scripts/handlers.py`; `tileToN_windowClosed` and
  `tileToN_windowLayoutsChanged` model the corresponding branches of the main
  event loop of `scripts/niri_tile_to_n.py`.
* `WallpaperManager`, `rotate_assign`, `schedule_rotation` model the
  `WallpaperManager` class of `scripts/handlers.py`.

Python dicts are modelled as insertion-ordered association lists with the
update-in-place-or-append insert `alistInsert`, matching Python's
iteration-order semantics.
-/

/-! ## Generic association-list dictionary (Python `dict`) -/

/-- Membership test, Python `k in d`. -/
def alistHasKey {κ α : Type} [DecidableEq κ] (d : List (κ × α)) (k : κ) : Bool :=
  d.any (fun p => p.1 = k)

/-- Lookup, Python `d.get(k)` (`none` when absent; first match governs, as in
a dict with unique keys). -/
def alistGet? {κ α : Type} [DecidableEq κ] : List (κ × α) → κ → Option α
  | [], _ => none
  | p :: t, k => if p.1 = k then some p.2 else alistGet? t k

/-- Lookup with default, Python `d.get(k, v)`. -/
def alistGetD {κ α : Type} [DecidableEq κ] (d : List (κ × α)) (k : κ) (v : α) : α :=
  (alistGet? d k).getD v

/-- Assignment `d[k] = v`: update in place if the key exists, append otherwise
(Python dicts keep the original position of an updated key). -/
def alistInsert {κ α : Type} [DecidableEq κ] (d : List (κ × α)) (k : κ) (v : α) :
    List (κ × α) :=
  if alistHasKey d k then d.map (fun p => if p.1 = k then (k, v) else p)
  else d ++ [(k, v)]

/-- Deletion, the removal part of Python `d.pop(k, ...)`. -/
def alistRemove {κ α : Type} [DecidableEq κ] (d : List (κ × α)) (k : κ) : List (κ × α) :=
  d.filter (fun p => ¬ p.1 = k)

/-! ## Transport framing (`NiriSocket._read_next`, `src/niri/_socket.py` 30-58) -/

/-- Python `str.split("\n")` on a character list: always returns at least one
piece; pieces contain no newline; a trailing newline yields a final `[]`. -/
def splitOnNl : List Char → List (List Char)
  | [] => [[]]
  | c :: rest =>
    if c = '\n' then [] :: splitOnNl rest
    else
      match splitOnNl rest with
      | [] => [[c]]
      | piece :: pieces => (c :: piece) :: pieces

/-- Buffering state of `NiriSocket`: the queue of already-split complete
messages (`_msg_queue`) and the carried trailing fragment (`_incomplete`,
`[]` standing for Python's `None` / `""`). -/
structure SocketState where
  msgQueue : List (List Char)
  incomplete : List Char
deriving DecidableEq, Repr

/-- Result of one `_read_next` call: either the end-of-stream sentinel `{}`
(zero-length `recv`) or one complete message string. -/
inductive ReadResult
  | eos
  | msg (m : List Char)
deriving DecidableEq, Repr

/-- Inner `while True` loop of `_read_next`: receive a chunk, prepend the
carried fragment, split on newline, carry the final piece, and repeat until at
least one complete message appears.  `none` models blocking forever because
the supplied chunk list ran out. -/
def read_loop : List Char → List (List Char) → Option (ReadResult × SocketState × List (List Char))
  | _, [] => none
  | inc, chunk :: rest =>
    if chunk = [] then some (.eos, ⟨[], inc⟩, rest)
    else
      match (splitOnNl (inc ++ chunk)).dropLast, (splitOnNl (inc ++ chunk)).getLastD [] with
      | [], newInc => read_loop newInc rest
      | m :: ms, newInc => some (.msg m, ⟨ms, newInc⟩, rest)

/-- One call of `NiriSocket._read_next`: drain the message queue first,
otherwise run the receive loop. -/
def read_next (st : SocketState) (chunks : List (List Char)) :
    Option (ReadResult × SocketState × List (List Char)) :=
  match st.msgQueue with
  | m :: rest => some (.msg m, ⟨rest, st.incomplete⟩, chunks)
  | [] => read_loop st.incomplete chunks

/-- Iterated `_read_next`: `k` successive calls, threading the socket state and
the unconsumed raw chunks. -/
def readMany : Nat → SocketState → List (List Char) → Option (List ReadResult × SocketState × List (List Char))
  | 0, st, chunks => some ([], st, chunks)
  | k + 1, st, chunks =>
    match read_next st chunks with
    | none => none
    | some (r, st', chunks') =>
      match readMany k st' chunks' with
      | none => none
      | some (rs, st'', chunks'') => some (r :: rs, st'', chunks'')

/-- Wire encoding of a message sequence: `msg1\n...\nmsgk\n`. -/
def encodeStream (msgs : List (List Char)) : List Char :=
  (msgs.map (fun m => m ++ ['\n'])).flatten

/-! ### Lemmas about `splitOnNl` -/

/-- Prepend a list to the head piece of a split (head of a nonempty list of
pieces). -/
def consHead (x : List Char) : List (List Char) → List (List Char)
  | [] => [x]
  | h :: t => (x ++ h) :: t

theorem splitOnNl_ne_nil (s : List Char) : splitOnNl s ≠ [] := by
  match s with
  | [] => simp [splitOnNl]
  | c :: rest =>
    simp only [splitOnNl]
    split
    · simp
    · cases h : splitOnNl rest <;> simp

theorem splitOnNl_cons_nl (s : List Char) :
    splitOnNl ('\n' :: s) = [] :: splitOnNl s := by
  simp [splitOnNl]

theorem splitOnNl_cons_ne {c : Char} (s : List Char) (h : ¬ c = '\n') :
    splitOnNl (c :: s) = consHead [c] (splitOnNl s) := by
  simp only [splitOnNl, if_neg h]
  cases hs : splitOnNl s with
  | nil => exact absurd hs (splitOnNl_ne_nil s)
  | cons p ps => simp [consHead]

theorem splitOnNl_append (a b : List Char) :
    splitOnNl (a ++ b) =
      (splitOnNl a).dropLast ++ consHead ((splitOnNl a).getLastD []) (splitOnNl b) := by
  induction a with
  | nil =>
    rw [List.nil_append]
    show splitOnNl b = List.dropLast [[]] ++ consHead (List.getLastD [[]] []) (splitOnNl b)
    cases h : splitOnNl b with
    | nil => exact absurd h (splitOnNl_ne_nil b)
    | cons p ps => simp [consHead]
  | cons c a ih =>
    by_cases hc : c = '\n'
    · subst hc
      rw [List.cons_append, splitOnNl_cons_nl, splitOnNl_cons_nl, ih]
      cases h : splitOnNl a with
      | nil => exact absurd h (splitOnNl_ne_nil a)
      | cons p ps =>
        cases ps with
        | nil => simp [consHead]
        | cons q qs => simp [List.getLastD_cons]
    · rw [List.cons_append, splitOnNl_cons_ne _ hc, splitOnNl_cons_ne _ hc, ih]
      cases h : splitOnNl a with
      | nil => exact absurd h (splitOnNl_ne_nil a)
      | cons p ps =>
        cases ps with
        | nil =>
          simp only [consHead, List.dropLast_single, List.nil_append,
            List.getLastD_cons, List.getLastD_nil]
          cases hb : splitOnNl b with
          | nil => exact absurd hb (splitOnNl_ne_nil b)
          | cons q qs => simp [consHead]
        | cons q qs =>
          simp [consHead, List.getLastD_cons]

/-- Splitting a newline-free string yields that single piece. -/
theorem splitOnNl_no_nl {m : List Char} (h : '\n' ∉ m) : splitOnNl m = [m] := by
  induction m with
  | nil => simp [splitOnNl]
  | cons c rest ih =>
    simp only [List.mem_cons, not_or] at h
    rw [splitOnNl_cons_ne _ (fun hc => h.1 hc.symm), ih h.2]
    simp [consHead]

/-- Splitting the encoding of newline-free messages yields the messages
followed by one empty trailing piece. -/
theorem splitOnNl_encodeStream {msgs : List (List Char)}
    (h : ∀ m ∈ msgs, '\n' ∉ m) :
    splitOnNl (encodeStream msgs) = msgs ++ [[]] := by
  induction msgs with
  | nil => simp [encodeStream, splitOnNl]
  | cons m rest ih =>
    have hm : '\n' ∉ m := h m (List.mem_cons_self m rest)
    have hrest : ∀ x ∈ rest, '\n' ∉ x := fun x hx => h x (List.mem_cons_of_mem m hx)
    have : encodeStream (m :: rest) = m ++ ('\n' :: encodeStream rest) := by
      simp [encodeStream]
    rw [this, splitOnNl_append, splitOnNl_no_nl hm, splitOnNl_cons_nl, ih hrest]
    simp [consHead, List.getLastD_cons]

/-! ### Auxiliary list lemmas -/

theorem getLastD_mem {α : Type} (l : List α) (d : α) (h : l ≠ []) : l.getLastD d ∈ l := by
  induction l generalizing d with
  | nil => exact absurd rfl h
  | cons x t ih =>
    cases t with
    | nil => simp
    | cons y t' =>
      rw [List.getLastD_cons]
      exact List.mem_cons_of_mem _ (ih x (by simp))

theorem getLastD_append_ne {α : Type} (l₁ l₂ : List α) (d : α) (h : l₂ ≠ []) :
    (l₁ ++ l₂).getLastD d = l₂.getLastD d := by
  rw [List.getLastD_eq_getLast?, List.getLastD_eq_getLast?, List.getLast?_append]
  cases hg : l₂.getLast? with
  | none => exact absurd (List.getLast?_eq_none_iff.mp hg) h
  | some x => simp

theorem dropLast_append_ne {α : Type} (l₁ l₂ : List α) (h : l₂ ≠ []) :
    (l₁ ++ l₂).dropLast = l₁ ++ l₂.dropLast := by
  induction l₁ with
  | nil => simp
  | cons x t ih =>
    have hne : t ++ l₂ ≠ [] := by
      intro hc
      exact h (List.append_eq_nil.mp hc).2
    rw [List.cons_append, List.dropLast_cons_of_ne_nil hne, ih, List.cons_append]

/-- Every piece produced by the newline split is newline-free. -/
theorem splitOnNl_pieces_no_nl : ∀ (s : List Char), ∀ p ∈ splitOnNl s, '\n' ∉ p := by
  intro s
  induction s with
  | nil => intro p hp; simp [splitOnNl] at hp; simp [hp]
  | cons c rest ih =>
    by_cases hc : c = '\n'
    · subst hc
      rw [splitOnNl_cons_nl]
      intro p hp
      rcases List.mem_cons.mp hp with h | h
      · simp [h]
      · exact ih p h
    · rw [splitOnNl_cons_ne _ hc]
      cases hs : splitOnNl rest with
      | nil => exact absurd hs (splitOnNl_ne_nil rest)
      | cons q qs =>
        intro p hp
        rcases List.mem_cons.mp hp with h | h
        · subst h
          intro hmem
          rcases List.mem_cons.mp hmem with h' | h'
          · exact hc h'.symm
          · exact ih q (hs ▸ List.mem_cons_self q qs) h'
        · exact ih p (hs ▸ List.mem_cons_of_mem q h)

/-- Splitting yields only the single empty piece exactly on the empty string. -/
theorem splitOnNl_eq_single_nil {s : List Char} (h : splitOnNl s = [[]]) : s = [] := by
  cases s with
  | nil => rfl
  | cons c rest =>
    by_cases hc : c = '\n'
    · subst hc
      rw [splitOnNl_cons_nl] at h
      have : splitOnNl rest = [] := by
        injection h with h1 h2
      exact absurd this (splitOnNl_ne_nil rest)
    · rw [splitOnNl_cons_ne _ hc] at h
      cases hs : splitOnNl rest with
      | nil => exact absurd hs (splitOnNl_ne_nil rest)
      | cons q qs =>
        rw [hs] at h
        simp [consHead] at h

/-- Splitting a string that starts with a newline-free fragment. -/
theorem splitOnNl_frag_append (inc s : List Char) (h : '\n' ∉ inc) :
    splitOnNl (inc ++ s) = consHead inc (splitOnNl s) := by
  rw [splitOnNl_append, splitOnNl_no_nl h]
  simp [List.getLastD_cons]

/-! ### Framing invariant and the framing theorem (claim C1) -/

/-- Invariant tying the socket buffering state and the unconsumed raw chunks to
the sequence of messages still to be delivered: the chunks are nonempty (no
spurious end-of-stream), the carried fragment is newline-free, the queued
messages followed by the complete pieces of the remaining byte stream are
exactly the undelivered messages, and the stream ends on a message boundary. -/
def StreamInv (st : SocketState) (chunks : List (List Char)) (rems : List (List Char)) : Prop :=
  (∀ c ∈ chunks, c ≠ []) ∧
  '\n' ∉ st.incomplete ∧
  st.msgQueue ++ (splitOnNl (st.incomplete ++ chunks.flatten)).dropLast = rems ∧
  (splitOnNl (st.incomplete ++ chunks.flatten)).getLastD [] = []

theorem read_loop_spec :
    ∀ (chunks : List (List Char)) (inc m : List Char) (rems' : List (List Char)),
    (∀ c ∈ chunks, c ≠ []) → '\n' ∉ inc →
    (splitOnNl (inc ++ chunks.flatten)).dropLast = m :: rems' →
    (splitOnNl (inc ++ chunks.flatten)).getLastD [] = [] →
    ∃ st' chunks', read_loop inc chunks = some (.msg m, st', chunks') ∧
      StreamInv st' chunks' rems' := by
  intro chunks
  induction chunks with
  | nil =>
    intro inc m rems' _ hinc hdrop _
    rw [List.flatten_nil, List.append_nil, splitOnNl_no_nl hinc] at hdrop
    simp at hdrop
  | cons c cs ih =>
    intro inc m rems' hne hinc hdrop hlast
    have hcne : c ≠ [] := hne c (List.mem_cons_self c cs)
    have hassoc : inc ++ (c :: cs).flatten = (inc ++ c) ++ cs.flatten := by
      rw [List.flatten_cons, List.append_assoc]
    have hkey : splitOnNl (inc ++ (c :: cs).flatten) =
        (splitOnNl (inc ++ c)).dropLast ++
          consHead ((splitOnNl (inc ++ c)).getLastD []) (splitOnNl cs.flatten) := by
      rw [hassoc, splitOnNl_append]
    have hfragfree : '\n' ∉ (splitOnNl (inc ++ c)).getLastD [] := by
      exact splitOnNl_pieces_no_nl (inc ++ c) _
        (getLastD_mem _ _ (splitOnNl_ne_nil (inc ++ c)))
    have hfrag : consHead ((splitOnNl (inc ++ c)).getLastD []) (splitOnNl cs.flatten) =
        splitOnNl ((splitOnNl (inc ++ c)).getLastD [] ++ cs.flatten) := by
      rw [splitOnNl_frag_append _ _ hfragfree]
    cases hd : (splitOnNl (inc ++ c)).dropLast with
    | nil =>
      have hred : read_loop inc (c :: cs) =
          read_loop ((splitOnNl (inc ++ c)).getLastD []) cs := by
        rw [read_loop, if_neg hcne, hd]
      rw [hkey, hd, List.nil_append, hfrag] at hdrop hlast
      obtain ⟨st', chunks', hrun, hinv⟩ :=
        ih _ m rems' (fun x hx => hne x (List.mem_cons_of_mem c hx)) hfragfree hdrop hlast
      exact ⟨st', chunks', by rw [hred]; exact hrun, hinv⟩
    | cons m0 ms =>
      have hconsne : consHead ((splitOnNl (inc ++ c)).getLastD []) (splitOnNl cs.flatten) ≠ [] := by
        rw [hfrag]; exact splitOnNl_ne_nil _
      rw [hkey, hd] at hdrop hlast
      rw [dropLast_append_ne _ _ hconsne] at hdrop
      rw [getLastD_append_ne _ _ _ hconsne] at hlast
      rw [List.cons_append] at hdrop
      injection hdrop with hm htail
      refine ⟨⟨ms, (splitOnNl (inc ++ c)).getLastD []⟩, cs, ?_, ?_⟩
      · rw [read_loop, if_neg hcne, hd, hm]
      · refine ⟨fun x hx => hne x (List.mem_cons_of_mem c hx), hfragfree, ?_, ?_⟩
        · show ms ++ (splitOnNl ((splitOnNl (inc ++ c)).getLastD [] ++ cs.flatten)).dropLast = rems'
          rw [← hfrag, htail]
        · show (splitOnNl ((splitOnNl (inc ++ c)).getLastD [] ++ cs.flatten)).getLastD [] = []
          rw [← hfrag, hlast]

theorem read_next_spec (st : SocketState) (chunks : List (List Char)) (m : List Char)
    (rems' : List (List Char)) (hinv : StreamInv st chunks (m :: rems')) :
    ∃ st' chunks', read_next st chunks = some (.msg m, st', chunks') ∧
      StreamInv st' chunks' rems' := by
  obtain ⟨hne, hinc, hmain, hlast⟩ := hinv
  cases hq : st.msgQueue with
  | cons q qs =>
    rw [hq, List.cons_append] at hmain
    injection hmain with hqm htail
    refine ⟨⟨qs, st.incomplete⟩, chunks, ?_, hne, hinc, htail, hlast⟩
    rw [read_next, hq, hqm]
  | nil =>
    rw [hq, List.nil_append] at hmain
    obtain ⟨st', chunks', hrun, hinv'⟩ := read_loop_spec chunks st.incomplete m rems' hne hinc hmain hlast
    refine ⟨st', chunks', ?_, hinv'⟩
    rw [read_next, hq]
    exact hrun

theorem readMany_spec :
    ∀ (rems : List (List Char)) (st : SocketState) (chunks : List (List Char)),
    StreamInv st chunks rems →
    ∃ st' chunks', readMany rems.length st chunks =
        some (rems.map ReadResult.msg, st', chunks') ∧ StreamInv st' chunks' [] := by
  intro rems
  induction rems with
  | nil =>
    intro st chunks hinv
    exact ⟨st, chunks, rfl, hinv⟩
  | cons m rems' ih =>
    intro st chunks hinv
    obtain ⟨st1, chunks1, hread, hinv1⟩ := read_next_spec st chunks m rems' hinv
    obtain ⟨st2, chunks2, hmany, hinv2⟩ := ih st1 chunks1 hinv1
    refine ⟨st2, chunks2, ?_, hinv2⟩
    simp only [List.length_cons, readMany, hread, hmany, List.map_cons]

theorem streamInv_nil_elim (st : SocketState) (chunks : List (List Char))
    (h : StreamInv st chunks []) : st = ⟨[], []⟩ ∧ chunks = [] := by
  obtain ⟨hne, _hinc, hmain, hlast⟩ := h
  obtain ⟨hq, hdrop⟩ := List.append_eq_nil.mp hmain
  have hsingle : splitOnNl (st.incomplete ++ chunks.flatten) = [[]] := by
    cases hs : splitOnNl (st.incomplete ++ chunks.flatten) with
    | nil => exact absurd hs (splitOnNl_ne_nil _)
    | cons p ps =>
      cases ps with
      | nil =>
        rw [hs] at hlast
        simp only [List.getLastD_cons, List.getLastD_nil] at hlast
        rw [hlast]
      | cons q qs =>
        rw [hs, List.dropLast_cons_of_ne_nil (by simp)] at hdrop
        simp at hdrop
  have hsnil := splitOnNl_eq_single_nil hsingle
  obtain ⟨hincnil, hflat⟩ := List.append_eq_nil.mp hsnil
  have hchunks : chunks = [] := by
    cases hc : chunks with
    | nil => rfl
    | cons x xs =>
      have : x = [] := (List.flatten_eq_nil_iff.mp hflat) x (hc ▸ List.mem_cons_self x xs)
      exact absurd this (hne x (hc ▸ List.mem_cons_self x xs))
  refine ⟨?_, hchunks⟩
  cases st
  simp_all

/-- C1: for every finite sequence of nonempty newline-free messages and every
way of delivering the byte stream `msg1\n...\nmsgk\n` to the transport as
ordered nonempty raw chunks (including chunks that split a message mid-way and
chunks containing several messages), `k` successive `_read_next` calls return
exactly the messages in order and fully consume the stream; a subsequent
zero-length raw read then returns the end-of-stream sentinel. -/
theorem framing_reads_messages_in_order (msgs chunks : List (List Char))
    (hmsgs : ∀ m ∈ msgs, m ≠ [] ∧ '\n' ∉ m)
    (hchunks : ∀ c ∈ chunks, c ≠ [])
    (hjoin : chunks.flatten = encodeStream msgs) :
    readMany msgs.length ⟨[], []⟩ chunks = some (msgs.map ReadResult.msg, ⟨[], []⟩, []) ∧
    (∀ more, read_next ⟨[], []⟩ ([] :: more) = some (.eos, ⟨[], []⟩, more)) := by
  have hinv : StreamInv ⟨[], []⟩ chunks msgs := by
    refine ⟨hchunks, by simp, ?_, ?_⟩
    · show [] ++ (splitOnNl ([] ++ chunks.flatten)).dropLast = msgs
      rw [List.nil_append, List.nil_append, hjoin,
        splitOnNl_encodeStream (fun m hm => (hmsgs m hm).2), List.dropLast_concat]
    · show (splitOnNl ([] ++ chunks.flatten)).getLastD [] = []
      rw [List.nil_append, hjoin, splitOnNl_encodeStream (fun m hm => (hmsgs m hm).2)]
      simp [List.getLastD_eq_getLast?]
  obtain ⟨st', chunks', hmany, hinv'⟩ := readMany_spec msgs ⟨[], []⟩ chunks hinv
  obtain ⟨hst, hch⟩ := streamInv_nil_elim st' chunks' hinv'
  subst hst hch
  exact ⟨hmany, fun _ => rfl⟩

/-! ## JSON values and the protocol client (`NiriRequests`, `src/niri/_socket.py` 74-105) -/

/-- Parsed JSON value, the result of `json.loads`. -/
inductive Json where
  | null
  | bool (b : Bool)
  | num (n : Int)
  | str (s : String)
  | arr (elems : List Json)
  | obj (fields : List (String × Json))

/-- Parsed JSON object, the `dict` returned by `_read_next`. -/
abbrev Dict := List (String × Json)

/-- Connection state at the protocol layer: the log of JSON lines written with
`sendall` (a bare-string request `f-quoted string` is exactly the JSON
serialization of that string, recorded as `Json.str`), and the queue of parsed
messages still to be produced by `_read_next` (an empty object being the
end-of-stream sentinel). -/
structure Conn where
  sent : List Json
  pending : List Dict

/-- Model of `NiriSocket._send_string`. -/
def send_string (c : Conn) (s : String) : Conn :=
  { c with sent := c.sent ++ [Json.str s] }

/-- Model of `NiriSocket._send_json`. -/
def send_json (c : Conn) (j : Json) : Conn :=
  { c with sent := c.sent ++ [j] }

/-- Protocol-layer `_read_next`: pop the next parsed message; `none` models
blocking forever on an idle connection. -/
def conn_read_next (c : Conn) : Option (Dict × Conn) :=
  match c.pending with
  | [] => none
  | m :: rest => some (m, { c with pending := rest })

/-- Model of `NiriRequests.request`: send the quoted string, read one message,
and unwrap `Ok`/`Err` (default `\x7b\x7d` when the key is absent). -/
def request (c : Conn) (message : String) : Option ((Bool × Json) × Conn) :=
  let c1 := send_string c message
  match conn_read_next c1 with
  | none => none
  | some (resp, c2) =>
    let is_ok := alistHasKey resp "Ok"
    some ((is_ok, alistGetD resp (if is_ok then "Ok" else "Err") (Json.obj [])), c2)

/-- Model of `NiriRequests.action`: build `\x7b"Action": ...\x7d` (the bare
action name when there are no parameters), send it, and handle the response
exactly as `request` does. -/
def action (c : Conn) (action_name : String) (params : Dict) : Option ((Bool × Json) × Conn) :=
  let action_obj := if params.isEmpty then Json.str action_name
                    else Json.obj [(action_name, Json.obj params)]
  let c1 := send_json c (Json.obj [("Action", action_obj)])
  match conn_read_next c1 with
  | none => none
  | some (resp, c2) =>
    let is_ok := alistHasKey resp "Ok"
    some ((is_ok, alistGetD resp (if is_ok then "Ok" else "Err") (Json.obj [])), c2)

/-- First key/value entry of an event envelope,
`(next(iter(event.keys())), event.get(name))`. -/
def firstEntry (m : Dict) : String × Json :=
  m.headD ("", Json.null)

/-- Event phase of `NiriRequests.read_eventstream`: read messages, stopping at
the end-of-stream sentinel (`if not event: break`), yielding the single
top-level pair of each envelope. -/
def streamEvents : List Dict → Option (List (String × Json))
  | [] => none
  | event :: rest =>
    if event.isEmpty then some []
    else
      match streamEvents rest with
      | none => none
      | some evs => some (firstEntry event :: evs)

/-- Model of `NiriRequests.read_eventstream`: send the `EventStream` request;
a non-Ok reply raises (`Except.error` carrying the unwrapped payload);
otherwise yield the event pairs.  Also returns the final send log. -/
def read_eventstream (c : Conn) : Option (Except Json (List (String × Json)) × List Json) :=
  match request c "EventStream" with
  | none => none
  | some ((is_ok, resp), c2) =>
    if is_ok then
      match streamEvents c2.pending with
      | none => none
      | some evs => some (.ok evs, c2.sent)
    else some (.error resp, c2.sent)

/-! ### Protocol lemmas and theorems (claims C2, C10, C8) -/

theorem alistGet?_of_hasKey_false {κ α : Type} [DecidableEq κ] {d : List (κ × α)} {k : κ}
    (h : alistHasKey d k = false) : alistGet? d k = none := by
  induction d with
  | nil => rfl
  | cons p t ih =>
    simp only [alistHasKey, List.any_cons, Bool.or_eq_false_iff] at h
    rw [alistGet?, if_neg (by simpa using h.1)]
    exact ih (by simp [alistHasKey, h.2])

theorem alistGetD_of_hasKey_false {κ α : Type} [DecidableEq κ] {d : List (κ × α)} {k : κ}
    (v : α) (h : alistHasKey d k = false) : alistGetD d k v = v := by
  rw [alistGetD, alistGet?_of_hasKey_false h, Option.getD_none]

/-- C2: for every request string, `request` sends the quoted string and reads
exactly one message; a `\x7b"Ok": X\x7d` reply yields `(true, X)` and a
`\x7b"Err": E\x7d` reply yields `(false, E)`. -/
theorem request_ok_err_responses (sent : List Json) (message : String) (X E : Json)
    (rest : List Dict) :
    request ⟨sent, [("Ok", X)] :: rest⟩ message
      = some ((true, X), ⟨sent ++ [Json.str message], rest⟩) ∧
    request ⟨sent, [("Err", E)] :: rest⟩ message
      = some ((false, E), ⟨sent ++ [Json.str message], rest⟩) := by
  constructor <;>
    simp [request, send_string, conn_read_next, alistHasKey, alistGetD, alistGet?]

/-- C10: a response carrying neither an `Ok` nor an `Err` key — the empty
end-of-stream sentinel included — makes both `request` and `action` return
`(false, empty payload)` instead of raising. -/
theorem request_action_missing_keys (sent : List Json) (message aname : String)
    (params : Dict) (resp : Dict) (rest : List Dict)
    (hok : alistHasKey resp "Ok" = false) (herr : alistHasKey resp "Err" = false) :
    request ⟨sent, resp :: rest⟩ message
      = some ((false, Json.obj []), ⟨sent ++ [Json.str message], rest⟩) ∧
    action ⟨sent, resp :: rest⟩ aname params
      = some ((false, Json.obj []),
          ⟨sent ++ [Json.obj [("Action",
              if params.isEmpty then Json.str aname
              else Json.obj [(aname, Json.obj params)])]], rest⟩) := by
  constructor
  · simp [request, send_string, conn_read_next, hok, alistGetD_of_hasKey_false _ herr]
  · simp [action, send_json, conn_read_next, hok, alistGetD_of_hasKey_false _ herr]

/-- Witness for C10 at the end-of-stream sentinel `\x7b\x7d`. -/
theorem request_action_missing_keys_witness :
    alistHasKey ([] : Dict) "Ok" = false ∧ alistHasKey ([] : Dict) "Err" = false ∧
    (request ⟨[], [[]]⟩ "Version"
        = some ((false, Json.obj []), ⟨[Json.str "Version"], []⟩) ∧
      action ⟨[], [[]]⟩ "FocusWindowUp" []
        = some ((false, Json.obj []),
            ⟨[Json.obj [("Action", Json.str "FocusWindowUp")]], []⟩)) :=
  ⟨rfl, rfl, request_action_missing_keys [] "Version" "FocusWindowUp" [] [] [] rfl rfl⟩

theorem streamEvents_until_sentinel (eventMsgs after : List Dict)
    (hev : ∀ e ∈ eventMsgs, e ≠ []) :
    streamEvents (eventMsgs ++ [] :: after) = some (eventMsgs.map firstEntry) := by
  induction eventMsgs with
  | nil => simp [streamEvents]
  | cons e es ih =>
    have hne : ¬ (e.isEmpty = true) := by
      simp [List.isEmpty_iff]
      exact hev e (List.mem_cons_self e es)
    rw [List.cons_append, streamEvents, if_neg hne,
      ih (fun x hx => hev x (List.mem_cons_of_mem e hx))]
    simp

/-- C8: `read_eventstream` sends the `EventStream` bare-string request; a
non-Ok reply fails carrying the error payload and yields no events; after an
Ok reply every subsequent read yields exactly one top-level `(name, payload)`
pair, until the end-of-stream sentinel is read. -/
theorem read_eventstream_reply_and_events (sent : List Json) (resp : Dict)
    (eventMsgs after : List Dict) (hev : ∀ e ∈ eventMsgs, e ≠ []) :
    (alistHasKey resp "Ok" = false →
      read_eventstream ⟨sent, resp :: (eventMsgs ++ [] :: after)⟩
        = some (.error (alistGetD resp "Err" (Json.obj [])),
            sent ++ [Json.str "EventStream"])) ∧
    (alistHasKey resp "Ok" = true →
      read_eventstream ⟨sent, resp :: (eventMsgs ++ [] :: after)⟩
        = some (.ok (eventMsgs.map firstEntry), sent ++ [Json.str "EventStream"])) := by
  constructor
  · intro hok
    simp [read_eventstream, request, send_string, conn_read_next, hok]
  · intro hok
    simp [read_eventstream, request, send_string, conn_read_next, hok,
      streamEvents_until_sentinel eventMsgs after hev]

/-- Witness for C8: a rejected and an accepted `EventStream` request, the
latter followed by two events and the sentinel. -/
theorem read_eventstream_reply_and_events_witness :
    (∀ e ∈ [[("WindowsChanged", Json.arr [])], [("ConfigLoaded", Json.null)]], e ≠ ([] : Dict)) ∧
    (alistHasKey [("Err", Json.str "nope")] "Ok" = false →
      read_eventstream ⟨[], [("Err", Json.str "nope")] ::
          ([[("WindowsChanged", Json.arr [])], [("ConfigLoaded", Json.null)]] ++ [] :: [])⟩
        = some (.error (alistGetD [("Err", Json.str "nope")] "Err" (Json.obj [])),
            [] ++ [Json.str "EventStream"])) ∧
    (alistHasKey [("Ok", Json.null)] "Ok" = true →
      read_eventstream ⟨[], [("Ok", Json.null)] ::
          ([[("WindowsChanged", Json.arr [])], [("ConfigLoaded", Json.null)]] ++ [] :: [])⟩
        = some (.ok ([[("WindowsChanged", Json.arr [])],
              [("ConfigLoaded", Json.null)]].map firstEntry),
            [] ++ [Json.str "EventStream"])) :=
  ⟨by simp,
   (read_eventstream_reply_and_events [] [("Err", Json.str "nope")]
      [[("WindowsChanged", Json.arr [])], [("ConfigLoaded", Json.null)]] [] (by simp)).1,
   (read_eventstream_reply_and_events [] [("Ok", Json.null)]
      [[("WindowsChanged", Json.arr [])], [("ConfigLoaded", Json.null)]] [] (by simp)).2⟩

/-- Witness for C1: two messages delivered as three chunks, one splitting the
second message mid-way and one carrying parts of two messages. -/
theorem framing_reads_messages_in_order_witness :
    (∀ m ∈ [['a', 'b'], ['c']], m ≠ [] ∧ '\n' ∉ m) ∧
    (∀ c ∈ [['a'], ['b', '\n', 'c'], ['\n']], c ≠ ([] : List Char)) ∧
    ([['a'], ['b', '\n', 'c'], ['\n']] : List (List Char)).flatten
      = encodeStream [['a', 'b'], ['c']] ∧
    (readMany 2 ⟨[], []⟩ [['a'], ['b', '\n', 'c'], ['\n']]
        = some ([['a', 'b'], ['c']].map ReadResult.msg, ⟨[], []⟩, []) ∧
      (∀ more, read_next ⟨[], []⟩ ([] :: more) = some (.eos, ⟨[], []⟩, more))) :=
  ⟨by decide, by decide, by decide,
   framing_reads_messages_in_order [['a', 'b'], ['c']] [['a'], ['b', '\n', 'c'], ['\n']]
     (by decide) (by decide) (by decide)⟩

/-! ## Event dispatcher (`EventDispatcher.dispatch`, `src/niri/events.py` 55-60) -/

/-- Handler registry of `EventDispatcher`: `_handlers` maps an event name to
its ordered handler list; `_global_handlers` is the ordered any-event list. -/
structure EventDispatcher (H : Type) where
  handlers : List (String × List H)
  global_handlers : List H

/-- Run handlers in order, as a `for` loop over the list does: each handler
either returns or raises (`Except.error`), a raise aborting the loop.  Returns
the handlers actually invoked, in order, and the propagated exception. -/
def runHandlers {H E : Type} (run : H → String → Dict → Except E Unit)
    (name : String) (data : Dict) : List H → List H × Option E
  | [] => ([], none)
  | h :: t =>
    match run h name data with
    | .ok _ =>
      let r := runHandlers run name data t
      (h :: r.1, r.2)
    | .error e => ([h], some e)

/-- Model of `EventDispatcher.dispatch`: all any-event handlers first, then
the handlers registered for this name (`self._handlers.get(event_name, [])`);
an exception propagates and aborts the rest. -/
def dispatch {H E : Type} (d : EventDispatcher H) (run : H → String → Dict → Except E Unit)
    (name : String) (data : Dict) : List H × Option E :=
  let g := runHandlers run name data d.global_handlers
  match g.2 with
  | some e => (g.1, some e)
  | none =>
    let s := runHandlers run name data (alistGetD d.handlers name [])
    (g.1 ++ s.1, s.2)

theorem runHandlers_all_ok {H E : Type} (run : H → String → Dict → Except E Unit)
    (name : String) (data : Dict) :
    ∀ hs : List H, (∀ h ∈ hs, run h name data = .ok ()) →
      runHandlers run name data hs = (hs, none) := by
  intro hs
  induction hs with
  | nil => intro _; rfl
  | cons h t ih =>
    intro hok
    rw [runHandlers, hok h (List.mem_cons_self h t),
      ih (fun x hx => hok x (List.mem_cons_of_mem h hx))]

theorem runHandlers_first_err {H E : Type} (run : H → String → Dict → Except E Unit)
    (name : String) (data : Dict) :
    ∀ (pre : List H) (fh : H) (post : List H) (e : E),
      (∀ h ∈ pre, run h name data = .ok ()) → run fh name data = .error e →
      runHandlers run name data (pre ++ fh :: post) = (pre ++ [fh], some e) := by
  intro pre
  induction pre with
  | nil =>
    intro fh post e _ herr
    rw [List.nil_append, runHandlers, herr, List.nil_append]
  | cons h t ih =>
    intro fh post e hok herr
    rw [List.cons_append, runHandlers, hok h (List.mem_cons_self h t),
      ih fh post e (fun x hx => hok x (List.mem_cons_of_mem h hx)) herr]
    simp

/-- C9: `dispatch` invokes all any-event handlers first, in registration
order, then all handlers registered for the event name, in registration
order; a raising handler propagates its exception and none of the handlers
after it run. -/
theorem dispatch_order_and_abort {H E : Type} (d : EventDispatcher H)
    (run : H → String → Dict → Except E Unit) (name : String) (data : Dict) :
    ((∀ h ∈ d.global_handlers ++ alistGetD d.handlers name [], run h name data = .ok ()) →
      dispatch d run name data = (d.global_handlers ++ alistGetD d.handlers name [], none)) ∧
    (∀ (pre : List H) (fh : H) (post : List H) (e : E),
      d.global_handlers = pre ++ fh :: post →
      (∀ h ∈ pre, run h name data = .ok ()) → run fh name data = .error e →
      dispatch d run name data = (pre ++ [fh], some e)) ∧
    (∀ (pre : List H) (fh : H) (post : List H) (e : E),
      alistGetD d.handlers name [] = pre ++ fh :: post →
      (∀ h ∈ d.global_handlers, run h name data = .ok ()) →
      (∀ h ∈ pre, run h name data = .ok ()) → run fh name data = .error e →
      dispatch d run name data = (d.global_handlers ++ pre ++ [fh], some e)) := by
  refine ⟨?_, ?_, ?_⟩
  · intro hok
    rw [dispatch,
      runHandlers_all_ok run name data d.global_handlers
        (fun h hh => hok h (List.mem_append_left _ hh)),
      runHandlers_all_ok run name data (alistGetD d.handlers name [])
        (fun h hh => hok h (List.mem_append_right _ hh))]
  · intro pre fh post e hsplit hok herr
    rw [dispatch, hsplit, runHandlers_first_err run name data pre fh post e hok herr]
  · intro pre fh post e hsplit hgok hok herr
    rw [dispatch, runHandlers_all_ok run name data d.global_handlers hgok, hsplit,
      runHandlers_first_err run name data pre fh post e hok herr, List.append_assoc]

/-- Concrete handler semantics for the C9 witness: handler 4 raises `9`,
every other handler returns normally. -/
def runW : Nat → String → Dict → Except Nat Unit :=
  fun h _ _ => if h = 4 then Except.error 9 else Except.ok ()

/-- Concrete dispatcher for the C9 witness: any-event handlers 1, 2 and
handlers 3, 4 registered for event name `X`. -/
def dW : EventDispatcher Nat := ⟨[("X", [3, 4])], [1, 2]⟩

/-- Witness for C9: dispatching `X` runs 1, 2 (any-event), then 3, and stops
at the raising handler 4, propagating its exception. -/
theorem dispatch_order_and_abort_witness :
    alistGetD dW.handlers "X" [] = [3] ++ 4 :: [] ∧
    (∀ h ∈ dW.global_handlers, runW h "X" [] = .ok ()) ∧
    (∀ h ∈ [3], runW h "X" [] = .ok ()) ∧
    runW 4 "X" [] = .error 9 ∧
    dispatch dW runW "X" [] = (dW.global_handlers ++ [3] ++ [4], some 9) :=
  ⟨rfl, by simp [dW, runW], by simp [runW], rfl,
   (dispatch_order_and_abort dW runW "X" []).2.2 [3] 4 [] 9 rfl
     (by simp [dW, runW]) (by simp [runW]) rfl⟩

/-! ## TileManager (`scripts/handlers.py` 21-106) -/

/-- Window fields used by the tiling logic: `id`, `workspace_id`,
`is_floating`, and `layout["pos_in_scrolling_layout"]` (a `(column, row)`
pair, or absent). -/
structure Window where
  id : Nat
  workspace_id : Nat
  is_floating : Bool
  pos_in_scrolling_layout : Option (Nat × Nat)
deriving DecidableEq, Repr

/-- Window mirror `win_state`, a Python dict keyed by window id. -/
abbrev WinState := List (Nat × Window)

/-- Configuration and mirror state of `TileManager`. -/
structure TileManager where
  n : Nat
  maximize_solos : Bool
  win_state : WinState
deriving DecidableEq, Repr

/-- Commands sent over the short-lived action connection. -/
inductive Command where
  | SetWindowWidth (id : Nat) (proportion : Nat)
  | ConsumeOrExpelWindowRight (id : Nat)
  | ConsumeOrExpelWindowLeft (id : Nat)
deriving DecidableEq, Repr

/-- Model of `TileManager._get_tiled_windows`: the non-floating windows of one
workspace, in mirror (insertion) order. -/
def get_tiled_windows (s : WinState) (workspace_id : Nat) : WinState :=
  s.filter (fun p => p.2.workspace_id = workspace_id ∧ p.2.is_floating = false)

/-- Model of `TileManager._get_col_idx`: the column component of the scrolling
layout position, if any. -/
def get_col_idx (w : Window) : Option Nat :=
  w.pos_in_scrolling_layout.map Prod.fst

/-- Model of the `WindowOpenedOrChanged` branch of `TileManager.__call__`:
upsert the window, and for a newly-seen non-floating window decide among
maximize-solo, 50/50 split, consume-or-expel, or nothing, from the count of
non-floating windows on its workspace. -/
def windowOpenedOrChanged (tm : TileManager) (win : Window) : TileManager × List Command :=
  let is_new := alistHasKey tm.win_state win.id = false
  let st := alistInsert tm.win_state win.id win
  let tm' := { tm with win_state := st }
  if ¬ is_new ∨ win.is_floating = true then (tm', [])
  else
    let tiled := get_tiled_windows st win.workspace_id
    let count := tiled.length
    if count = 1 ∧ tm.maximize_solos = true then
      (tm', [Command.SetWindowWidth win.id 100])
    else if count = 2 then
      (tm', tiled.map (fun p => Command.SetWindowWidth p.1 50))
    else if 2 < count ∧ count ≤ tm.n then
      (tm', [if get_col_idx win = some 2 then Command.ConsumeOrExpelWindowRight win.id
             else Command.ConsumeOrExpelWindowLeft win.id])
    else (tm', [])

/-- Model of the `WindowClosed` branch of `TileManager.__call__`: pop the
window (unknown id: return, no change), then maximize the single remaining
non-floating window of its former workspace when `maximize_solos` is set
(`next(iter(tiled))` is the first key of the filtered dict). -/
def windowClosed (tm : TileManager) (wid : Nat) : TileManager × List Command :=
  match alistGet? tm.win_state wid with
  | none => (tm, [])
  | some closed =>
    let st := alistRemove tm.win_state wid
    let tm' := { tm with win_state := st }
    match get_tiled_windows st closed.workspace_id, tm.maximize_solos with
    | [(rid, _)], true => (tm', [Command.SetWindowWidth rid 100])
    | _, _ => (tm', [])

/-- Model of the `WindowLayoutsChanged` branch of `TileManager.__call__`:
patch the layout of each known changed id, silently skipping unknown ids;
no command is ever issued. -/
def windowLayoutsChanged (tm : TileManager) (changes : List (Nat × Option (Nat × Nat))) :
    TileManager × List Command :=
  ({ tm with win_state := changes.foldl (fun s c =>
      match alistGet? s c.1 with
      | none => s
      | some w => alistInsert s c.1 { w with pos_in_scrolling_layout := c.2 }) tm.win_state },
   [])

/-! ### niri_tile_to_n.py variant of the incremental branches -/

/-- Python exceptions raised by the `niri_tile_to_n.py` main loop. -/
inductive PyError
  | keyError (k : Nat)
  | noneTypeError
deriving DecidableEq, Repr

/-- Model of the `WindowClosed` branch of the `niri_tile_to_n.py` main loop
(lines 412-415): `win_state.pop(evt_win_id)` with no default raises `KeyError`
on an unknown id, and `AttributeError` when `win_state` is still `None`
(before the first `WindowsChanged` full replace). -/
def tileToN_windowClosed : Option WinState → Nat → Except PyError (Window × WinState)
  | none, _ => .error .noneTypeError
  | some st, wid =>
    match alistGet? st wid with
    | none => .error (.keyError wid)
    | some w => .ok (w, alistRemove st wid)

/-- Model of the `WindowLayoutsChanged` branch of the `niri_tile_to_n.py` main
loop (lines 426-431): `win_state[evt_win_id]["layout"] = ...` raises
`KeyError` on an unknown id (no membership check), and `TypeError` when
`win_state` is still `None`. -/
def tileToN_windowLayoutsChanged (st? : Option WinState)
    (changes : List (Nat × Option (Nat × Nat))) : Except PyError WinState :=
  match st? with
  | none => .error .noneTypeError
  | some st => go st changes
where
  go : WinState → List (Nat × Option (Nat × Nat)) → Except PyError WinState
    | st, [] => .ok st
    | st, (wid, lay) :: rest =>
      match alistGet? st wid with
      | none => .error (.keyError wid)
      | some w => go (alistInsert st wid { w with pos_in_scrolling_layout := lay }) rest

/-! ### Tiling theorems (claims C3, C7, C5) -/

theorem alistHasKey_remove {κ α : Type} [DecidableEq κ] (d : List (κ × α)) (k : κ) :
    alistHasKey (alistRemove d k) k = false := by
  simp only [alistHasKey, alistRemove]
  rw [List.any_eq_false]
  intro x hx
  simpa using List.of_mem_filter hx

/-- C3 (amended): on a newly-seen non-floating window, with threshold `N ≥ 1`:
a lone window with maximize-solos on gets only `SetWidth(w, 100)`; a count of
two yields `SetWidth(·, 50)` for each non-floating window of the workspace; a
count in `(2, N]` yields exactly one consume-or-expel command (right exactly
when the column index is 2) and no width command; a count above `N` other
than two yields no command (at count two the 50/50 branch fires first). -/
theorem window_opened_tiling (tm : TileManager) (win : Window)
    (hnew : alistHasKey tm.win_state win.id = false)
    (hfloat : win.is_floating = false)
    (hn : 1 ≤ tm.n) :
    ((get_tiled_windows (alistInsert tm.win_state win.id win) win.workspace_id).length = 1 ∧
        tm.maximize_solos = true →
      (windowOpenedOrChanged tm win).2 = [Command.SetWindowWidth win.id 100]) ∧
    ((get_tiled_windows (alistInsert tm.win_state win.id win) win.workspace_id).length = 2 →
      (windowOpenedOrChanged tm win).2
        = (get_tiled_windows (alistInsert tm.win_state win.id win) win.workspace_id).map
            (fun p => Command.SetWindowWidth p.1 50)) ∧
    (2 < (get_tiled_windows (alistInsert tm.win_state win.id win) win.workspace_id).length ∧
        (get_tiled_windows (alistInsert tm.win_state win.id win) win.workspace_id).length ≤ tm.n →
      (windowOpenedOrChanged tm win).2
        = [if get_col_idx win = some 2 then Command.ConsumeOrExpelWindowRight win.id
           else Command.ConsumeOrExpelWindowLeft win.id]) ∧
    (tm.n < (get_tiled_windows (alistInsert tm.win_state win.id win) win.workspace_id).length ∧
        (get_tiled_windows (alistInsert tm.win_state win.id win) win.workspace_id).length ≠ 2 →
      (windowOpenedOrChanged tm win).2 = []) := by
  have hguard : ¬ (¬ (alistHasKey tm.win_state win.id = false) ∨ win.is_floating = true) := by
    simp [hnew, hfloat]
  simp only [windowOpenedOrChanged, if_neg hguard]
  refine ⟨?_, ?_, ?_, ?_⟩
  · rintro ⟨hcount, hmax⟩
    rw [if_pos ⟨hcount, hmax⟩]
  · intro hcount
    rw [if_neg (by omega), if_pos hcount]
  · rintro ⟨hlow, hhigh⟩
    rw [if_neg (by omega), if_neg (by omega), if_pos ⟨hlow, hhigh⟩]
  · rintro ⟨hover, hne2⟩
    rw [if_neg (by omega), if_neg (by omega), if_neg (by omega)]

/-- Windows used by the C3 theorems: three tiled windows on workspace 7. -/
def w1 : Window := ⟨1, 7, false, some (0, 0)⟩

/-- Second concrete window on workspace 7. -/
def w2 : Window := ⟨2, 7, false, some (1, 0)⟩

/-- Third concrete window on workspace 7, opening at column index 2. -/
def w3 : Window := ⟨3, 7, false, some (2, 0)⟩

/-- TileManager for the C3 witness: `N = 3`, two windows already mirrored. -/
def tmW : TileManager := ⟨3, true, [(1, w1), (2, w2)]⟩

/-- Witness for C3 (amended): a third window on a two-window workspace with
`N = 3` draws exactly one consume-or-expel command. -/
theorem window_opened_tiling_witness :
    alistHasKey tmW.win_state w3.id = false ∧
    w3.is_floating = false ∧
    1 ≤ tmW.n ∧
    2 < (get_tiled_windows (alistInsert tmW.win_state w3.id w3) w3.workspace_id).length ∧
    (get_tiled_windows (alistInsert tmW.win_state w3.id w3) w3.workspace_id).length ≤ tmW.n ∧
    (windowOpenedOrChanged tmW w3).2
      = [if get_col_idx w3 = some 2 then Command.ConsumeOrExpelWindowRight w3.id
         else Command.ConsumeOrExpelWindowLeft w3.id] :=
  ⟨by decide, by decide, by decide, by decide, by decide,
   (window_opened_tiling tmW w3 (by decide) (by decide) (by decide)).2.2.1
     ⟨by decide, by decide⟩⟩

/-- TileManager refuting the unamended C3: `N = 1`, one window mirrored. -/
def tmX : TileManager := ⟨1, true, [(1, w1)]⟩

/-- Counterexample to C3 as stated: with `N = 1`, a second newly-seen
non-floating window makes the count `2 > N`, yet the code issues the two
50-percent width commands of the count-two branch instead of no command. -/
theorem window_opened_overflow_cex :
    alistHasKey tmX.win_state w2.id = false ∧
    w2.is_floating = false ∧
    1 ≤ tmX.n ∧
    tmX.n < (get_tiled_windows (alistInsert tmX.win_state w2.id w2) w2.workspace_id).length ∧
    (windowOpenedOrChanged tmX w2).2
      = [Command.SetWindowWidth 1 50, Command.SetWindowWidth 2 50] := by
  decide

/-- C7: closing a known window removes its mirror entry; if exactly one
non-floating window remains on the former workspace and maximize-solos is
enabled, the code issues `SetWidth(remaining, 100)`; if none remains (the
closed window was the sole one) no command is issued. -/
theorem window_closed_maximize (tm : TileManager) (wid : Nat) (closedWin : Window)
    (hfound : alistGet? tm.win_state wid = some closedWin) :
    (windowClosed tm wid).1 = { tm with win_state := alistRemove tm.win_state wid } ∧
    alistHasKey (windowClosed tm wid).1.win_state wid = false ∧
    (∀ rid rwin,
      get_tiled_windows (alistRemove tm.win_state wid) closedWin.workspace_id = [(rid, rwin)] →
      tm.maximize_solos = true →
      (windowClosed tm wid).2 = [Command.SetWindowWidth rid 100]) ∧
    (get_tiled_windows (alistRemove tm.win_state wid) closedWin.workspace_id = [] →
      (windowClosed tm wid).2 = []) := by
  have h1 : (windowClosed tm wid).1 = { tm with win_state := alistRemove tm.win_state wid } := by
    simp only [windowClosed, hfound]
    split <;> rfl
  refine ⟨h1, ?_, ?_, ?_⟩
  · rw [h1]
    exact alistHasKey_remove _ _
  · intro rid rwin htiled hmax
    simp only [windowClosed, hfound, htiled, hmax]
  · intro htiled
    simp only [windowClosed, hfound, htiled]

/-- Window for the C7 witness, on workspace 5. -/
def w10 : Window := ⟨10, 5, false, some (0, 0)⟩

/-- Second window for the C7 witness, on workspace 5. -/
def w11 : Window := ⟨11, 5, false, some (1, 0)⟩

/-- TileManager for the C7 witness: two tiled windows on workspace 5. -/
def tmC : TileManager := ⟨3, true, [(10, w10), (11, w11)]⟩

/-- Witness for C7: closing one of two windows on workspace 5. -/
theorem window_closed_maximize_witness :
    alistGet? tmC.win_state 10 = some w10 ∧
    ((windowClosed tmC 10).1 = { tmC with win_state := alistRemove tmC.win_state 10 } ∧
      alistHasKey (windowClosed tmC 10).1.win_state 10 = false ∧
      (∀ rid rwin,
        get_tiled_windows (alistRemove tmC.win_state 10) w10.workspace_id = [(rid, rwin)] →
        tmC.maximize_solos = true →
        (windowClosed tmC 10).2 = [Command.SetWindowWidth rid 100]) ∧
      (get_tiled_windows (alistRemove tmC.win_state 10) w10.workspace_id = [] →
        (windowClosed tmC 10).2 = [])) :=
  ⟨by decide, window_closed_maximize tmC 10 w10 (by decide)⟩

/-- C5: an incremental event (window close or layout patch) whose id is
unknown, or arriving before the first full replace, is skipped without error
by the `handlers.py` TileManager, leaving the mirror unchanged and issuing no
command — but the `niri_tile_to_n.py` main loop raises on the same inputs
(`KeyError` for an unknown id, and an attribute/type error on the
uninitialized `None` mirror). -/
theorem unknown_id_event_divergence :
    tileToN_windowClosed (some [(1, w1)]) 5 = .error (.keyError 5) ∧
    tileToN_windowClosed none 5 = .error .noneTypeError ∧
    tileToN_windowLayoutsChanged (some [(1, w1)]) [(5, none)] = .error (.keyError 5) ∧
    tileToN_windowLayoutsChanged none [(5, none)] = .error .noneTypeError ∧
    windowClosed ⟨3, true, [(1, w1)]⟩ 5 = (⟨3, true, [(1, w1)]⟩, []) ∧
    windowLayoutsChanged ⟨3, true, [(1, w1)]⟩ [(5, none)] = (⟨3, true, [(1, w1)]⟩, []) :=
  ⟨rfl, rfl, rfl, rfl, rfl, rfl⟩

/-! ## WallpaperManager (`scripts/handlers.py` 109-191) -/

/-- Rotation-relevant state of `WallpaperManager`: the scanned image pool,
the workspace-to-wallpaper assignment, and the workspace-to-output map. -/
structure WallpaperManager where
  all_wallpapers : List String
  workspace_wallpapers : List (Nat × String)
  workspace_outputs : List (Nat × String)
deriving DecidableEq, Repr

/-- Assignment loop of `WallpaperManager._rotate`:
`for i, ws_id in enumerate(self.workspace_outputs): workspace_wallpapers[ws_id]
= shuffled[i % len(shuffled)]`.  `none` models the `ZeroDivisionError` of
`i % 0` on an empty pool. -/
def rotate_assign_loop (shuffled : List String) :
    List (Nat × String) → Nat → List (Nat × String) → Option (List (Nat × String))
  | [], _, wp => some wp
  | (ws, _) :: rest, i, wp =>
    match shuffled.get? (i % shuffled.length) with
    | none => none
    | some img => rotate_assign_loop shuffled rest (i + 1) (alistInsert wp ws img)

/-- Assignment part of `WallpaperManager._rotate`, with `random.shuffle`
modelled as an arbitrary permutation `shuffled` of the pool supplied as an
input. -/
def rotate_assign (wm : WallpaperManager) (shuffled : List String) : Option WallpaperManager :=
  (rotate_assign_loop shuffled wm.workspace_outputs 0 wm.workspace_wallpapers).map
    (fun wp => { wm with workspace_wallpapers := wp })

/-! ### Association-list insert/lookup lemmas -/

theorem alistGet?_append {κ α : Type} [DecidableEq κ] (d₁ d₂ : List (κ × α)) (k : κ) :
    alistGet? (d₁ ++ d₂) k = ((alistGet? d₁ k).rec (alistGet? d₂ k) (fun v => some v)) := by
  induction d₁ with
  | nil => rfl
  | cons p t ih =>
    by_cases hp : p.1 = k
    · rw [List.cons_append, alistGet?, if_pos hp, alistGet?, if_pos hp]
    · rw [List.cons_append, alistGet?, if_neg hp, alistGet?, if_neg hp, ih]

theorem alistGet?_map_update_self {κ α : Type} [DecidableEq κ] (d : List (κ × α)) (k : κ)
    (v : α) (h : alistHasKey d k = true) :
    alistGet? (d.map (fun p => if p.1 = k then (k, v) else p)) k = some v := by
  induction d with
  | nil => simp [alistHasKey] at h
  | cons p t ih =>
    rw [List.map_cons]
    by_cases hp : p.1 = k
    · rw [if_pos hp, alistGet?]
      simp
    · rw [if_neg hp, alistGet?, if_neg hp]
      refine ih ?_
      simp only [alistHasKey, List.any_cons, Bool.or_eq_true_iff] at h
      rcases h with h | h
      · exact absurd (by simpa using h) hp
      · exact h

theorem alistGet?_map_update_ne {κ α : Type} [DecidableEq κ] (d : List (κ × α)) (k k' : κ)
    (v : α) (hne : k' ≠ k) :
    alistGet? (d.map (fun p => if p.1 = k then (k, v) else p)) k' = alistGet? d k' := by
  induction d with
  | nil => rfl
  | cons p t ih =>
    rw [List.map_cons]
    by_cases hp : p.1 = k
    · rw [if_pos hp, alistGet?, alistGet?,
        if_neg (show ¬ (k, v).1 = k' from fun hc => hne hc.symm),
        if_neg (show ¬ p.1 = k' from by rw [hp]; exact fun hc => hne hc.symm), ih]
    · rw [if_neg hp, alistGet?, alistGet?, ih]

theorem alistGet?_insert_self {κ α : Type} [DecidableEq κ] (d : List (κ × α)) (k : κ) (v : α) :
    alistGet? (alistInsert d k v) k = some v := by
  by_cases h : alistHasKey d k = true
  · rw [alistInsert, if_pos h]
    exact alistGet?_map_update_self d k v h
  · have h' : alistHasKey d k = false := by simpa using h
    rw [alistInsert, if_neg (by simp [h']), alistGet?_append,
      alistGet?_of_hasKey_false h']
    simp [alistGet?]

theorem alistGet?_insert_ne {κ α : Type} [DecidableEq κ] (d : List (κ × α)) (k k' : κ) (v : α)
    (hne : k' ≠ k) :
    alistGet? (alistInsert d k v) k' = alistGet? d k' := by
  by_cases h : alistHasKey d k = true
  · rw [alistInsert, if_pos h]
    exact alistGet?_map_update_ne d k k' v hne
  · rw [alistInsert, if_neg (by simp [h]), alistGet?_append]
    cases hd : alistGet? d k' with
    | some v' => rfl
    | none =>
      show alistGet? [(k, v)] k' = none
      rw [alistGet?, if_neg (fun hc => hne hc.symm)]
      rfl

/-! ### Rotation assignment theorem (claim C4) -/

theorem rotate_assign_loop_spec (shuffled : List String) (hsne : shuffled ≠ []) :
    ∀ (outs : List (Nat × String)) (i : Nat) (wp : List (Nat × String)),
    ∃ wp', rotate_assign_loop shuffled outs i wp = some wp' ∧
      ((outs.map Prod.fst).Nodup →
        ∀ j ws out, outs.get? j = some (ws, out) →
          alistGet? wp' ws = shuffled.get? ((i + j) % shuffled.length)) ∧
      (∀ ws, ws ∉ outs.map Prod.fst → alistGet? wp' ws = alistGet? wp ws) := by
  intro outs
  induction outs with
  | nil =>
    intro i wp
    exact ⟨wp, rfl, by simp, fun ws _ => rfl⟩
  | cons o rest ih =>
    intro i wp
    obtain ⟨ws0, out0⟩ := o
    have hlt : i % shuffled.length < shuffled.length :=
      Nat.mod_lt _ (List.length_pos.mpr hsne)
    obtain ⟨img, himg⟩ : ∃ v, shuffled.get? (i % shuffled.length) = some v := by
      rw [List.get?_eq_get hlt]
      exact ⟨_, rfl⟩
    obtain ⟨wp', hrun, hchar, hother⟩ := ih (i + 1) (alistInsert wp ws0 img)
    refine ⟨wp', ?_, ?_, ?_⟩
    · rw [rotate_assign_loop, himg]
      exact hrun
    · intro hnodup j ws out hj
      rw [List.map_cons, List.nodup_cons] at hnodup
      cases j with
      | zero =>
        have hpair : (ws0, out0) = (ws, out) := by
          simpa using hj
        obtain ⟨h1, h2⟩ := Prod.mk.injEq .. ▸ hpair
        subst h1
        rw [hother ws0 hnodup.1, alistGet?_insert_self]
        rw [Nat.add_zero, himg]
      | succ j' =>
        have h' := hchar hnodup.2 j' ws out (by simpa using hj)
        rw [show i + 1 + j' = i + (j' + 1) from by omega] at h'
        exact h'
    · intro ws hws
      rw [List.map_cons, List.mem_cons] at hws
      push_neg at hws
      rw [hother ws hws.2, alistGet?_insert_ne _ _ _ _ hws.1]

/-- C4: with a nonempty duplicate-free pool, `rotate` succeeds; the workspace
at position `j` of the output map receives `shuffled[j % pool_size]` (cyclic
reuse when the pool is smaller than the workspace count); when the pool is at
least as large as the workspace count all workspaces receive pairwise
distinct images; and the assignment of any workspace without a known output
is left untouched. -/
theorem rotate_assign_spec (wm : WallpaperManager) (shuffled : List String)
    (hperm : shuffled.Perm wm.all_wallpapers)
    (hpool : wm.all_wallpapers ≠ [])
    (hnodup : wm.all_wallpapers.Nodup)
    (hkeys : (wm.workspace_outputs.map Prod.fst).Nodup) :
    ∃ wm', rotate_assign wm shuffled = some wm' ∧
      (∀ j ws out, wm.workspace_outputs.get? j = some (ws, out) →
        alistGet? wm'.workspace_wallpapers ws = shuffled.get? (j % shuffled.length)) ∧
      (wm.workspace_outputs.length ≤ shuffled.length →
        ∀ i j wsi outi wsj outj,
          wm.workspace_outputs.get? i = some (wsi, outi) →
          wm.workspace_outputs.get? j = some (wsj, outj) →
          i ≠ j →
          alistGet? wm'.workspace_wallpapers wsi ≠ alistGet? wm'.workspace_wallpapers wsj) ∧
      (∀ ws, ws ∉ wm.workspace_outputs.map Prod.fst →
        alistGet? wm'.workspace_wallpapers ws = alistGet? wm.workspace_wallpapers ws) := by
  have hsne : shuffled ≠ [] := by
    intro hc
    have hlen := hperm.length_eq
    rw [hc] at hlen
    exact hpool (List.length_eq_zero.mp hlen.symm)
  obtain ⟨wp', hrun, hchar, hother⟩ :=
    rotate_assign_loop_spec shuffled hsne wm.workspace_outputs 0 wm.workspace_wallpapers
  have hmain : ∀ j ws out, wm.workspace_outputs.get? j = some (ws, out) →
      alistGet? wp' ws = shuffled.get? (j % shuffled.length) := by
    intro j ws out hj
    have := hchar hkeys j ws out hj
    rwa [Nat.zero_add] at this
  refine ⟨{ wm with workspace_wallpapers := wp' }, ?_, hmain, ?_, hother⟩
  · rw [rotate_assign, hrun]
    rfl
  · intro hlen i j wsi outi wsj outj hi hj hij
    have hilen : i < wm.workspace_outputs.length := by
      by_contra hge
      rw [List.get?_eq_none.mpr (by omega)] at hi
      exact Option.noConfusion hi
    have hjlen : j < wm.workspace_outputs.length := by
      by_contra hge
      rw [List.get?_eq_none.mpr (by omega)] at hj
      exact Option.noConfusion hj
    have hsnodup : shuffled.Nodup := hperm.nodup_iff.mpr hnodup
    rw [hmain i wsi outi hi, hmain j wsj outj hj,
      Nat.mod_eq_of_lt (by omega), Nat.mod_eq_of_lt (by omega)]
    intro heq
    exact hij (List.get?_inj (by omega) hsnodup heq)

/-- Witness for C4: pool of two images, three workspaces (two with outputs,
exercising the cyclic reuse), and one workspace with no output. -/
theorem rotate_assign_spec_witness :
    (["b.png", "a.png"] : List String).Perm ["a.png", "b.png"] ∧
    (["a.png", "b.png"] : List String) ≠ [] ∧
    (["a.png", "b.png"] : List String).Nodup ∧
    (([(1, "eDP-1"), (2, "HDMI-1"), (3, "eDP-1")] : List (Nat × String)).map Prod.fst).Nodup ∧
    (∃ wm', rotate_assign ⟨["a.png", "b.png"], [(9, "old.png")],
          [(1, "eDP-1"), (2, "HDMI-1"), (3, "eDP-1")]⟩ ["b.png", "a.png"] = some wm' ∧
      (∀ j ws out,
        ([(1, "eDP-1"), (2, "HDMI-1"), (3, "eDP-1")] : List (Nat × String)).get? j
            = some (ws, out) →
        alistGet? wm'.workspace_wallpapers ws
          = (["b.png", "a.png"] : List String).get? (j % (["b.png", "a.png"] : List String).length)) ∧
      (([(1, "eDP-1"), (2, "HDMI-1"), (3, "eDP-1")] : List (Nat × String)).length
          ≤ (["b.png", "a.png"] : List String).length →
        ∀ i j wsi outi wsj outj,
          ([(1, "eDP-1"), (2, "HDMI-1"), (3, "eDP-1")] : List (Nat × String)).get? i
              = some (wsi, outi) →
          ([(1, "eDP-1"), (2, "HDMI-1"), (3, "eDP-1")] : List (Nat × String)).get? j
              = some (wsj, outj) →
          i ≠ j →
          alistGet? wm'.workspace_wallpapers wsi ≠ alistGet? wm'.workspace_wallpapers wsj) ∧
      (∀ ws, ws ∉ ([(1, "eDP-1"), (2, "HDMI-1"), (3, "eDP-1")] : List (Nat × String)).map Prod.fst →
        alistGet? wm'.workspace_wallpapers ws
          = alistGet? ([(9, "old.png")] : List (Nat × String)) ws)) :=
  ⟨by decide, by decide, by decide, by decide,
   rotate_assign_spec ⟨["a.png", "b.png"], [(9, "old.png")],
       [(1, "eDP-1"), (2, "HDMI-1"), (3, "eDP-1")]⟩ ["b.png", "a.png"]
     (by decide) (by decide) (by decide) (by decide)⟩

/-! ## Rotation timer scheduling (`WallpaperManager._schedule_rotation`,
`scripts/handlers.py` 157-162, claim C6) -/

/-- Model of `_schedule_rotation` over an explicit timer world.  The world is
the list of `threading.Timer` objects created so far, indexed by creation
order, each flagged pending (started, not cancelled, not yet fired).  The
first component is the `self.timer` slot.  The code cancels the slot's timer
when one exists (`if self.timer: self.timer.cancel()`), then creates and
starts a fresh timer and stores it in the slot. -/
def schedule_rotation : Option Nat × List Bool → Option Nat × List Bool
  | (slot, timers) =>
    let timers1 := match slot with
      | some tid => timers.set tid false
      | none => timers
    (some timers1.length, timers1 ++ [true])

/-- Iterated scheduling: each `_rotate` call ends by calling
`_schedule_rotation`, so a sequence of `n` rotations performs `n` of these
steps. -/
def iter_schedule : Nat → Option Nat × List Bool → Option Nat × List Bool
  | 0, s => s
  | n + 1, s => iter_schedule n (schedule_rotation s)

/-- Number of pending timers in the world. -/
def pendingTimers (timers : List Bool) : Nat := timers.count true

theorem replicate_set_last (m : Nat) :
    (List.replicate m false ++ [true]).set m false = List.replicate (m + 1) false := by
  induction m with
  | zero => rfl
  | succ m ih =>
    rw [List.replicate_succ, List.cons_append, List.set_cons_succ, ih, ← List.replicate_succ]

theorem schedule_rotation_step (m : Nat) :
    schedule_rotation (some m, List.replicate m false ++ [true])
      = (some (m + 1), List.replicate (m + 1) false ++ [true]) := by
  simp only [schedule_rotation, replicate_set_last]
  rw [List.length_replicate]

theorem iter_schedule_closed_form :
    ∀ (k m : Nat), iter_schedule k (some m, List.replicate m false ++ [true])
      = (some (m + k), List.replicate (m + k) false ++ [true]) := by
  intro k
  induction k with
  | zero => intro m; rfl
  | succ k ih =>
    intro m
    rw [iter_schedule, schedule_rotation_step, ih (m + 1),
      show m + 1 + k = m + (k + 1) from by omega]

theorem pendingTimers_replicate_true (m : Nat) :
    pendingTimers (List.replicate m false ++ [true]) = 1 := by
  simp [pendingTimers, List.count_append, List.count_replicate]

/-- C6: starting from the initial state (no timer slot, no timers created),
any positive number of `_schedule_rotation` calls — in particular the two
performed by two `rotate()` calls — leaves exactly one pending timer, and any
number of calls leaves at most one pending timer: each scheduling cancels the
previously pending timer first. -/
theorem rotation_timer_at_most_one :
    (∀ n, pendingTimers (iter_schedule n (none, [])).2 ≤ 1) ∧
    (∀ n, pendingTimers (iter_schedule (n + 1) (none, [])).2 = 1) ∧
    pendingTimers (iter_schedule 2 (none, [])).2 = 1 := by
  have hfirst : schedule_rotation ((none : Option Nat), ([] : List Bool))
      = (some 0, List.replicate 0 false ++ [true]) := rfl
  have hpos : ∀ n, iter_schedule (n + 1) ((none : Option Nat), ([] : List Bool))
      = (some n, List.replicate n false ++ [true]) := by
    intro n
    rw [iter_schedule, hfirst, iter_schedule_closed_form n 0, Nat.zero_add]
  refine ⟨?_, ?_, ?_⟩
  · intro n
    cases n with
    | zero => simp [iter_schedule, pendingTimers]
    | succ n => rw [hpos n, pendingTimers_replicate_true]
  · intro n
    rw [hpos n, pendingTimers_replicate_true]
  · rw [hpos 1, pendingTimers_replicate_true]
